import Mathlib

/-
Verification of the text-layout core in `inkycal/custom/functions.py`
(`write`, `text_wrap`, `draw_border`).

Modelling conventions:
- Python strings are `List Char` (`Str`); `text[0:-1]` is `List.dropLast`,
  `text.split(' ')` is `splitSp` below (keeps empty chunks, like Python's
  `str.split` with an explicit separator).
- A PIL truetype font is a `FontFamily`: for every point size it measures a
  width and a height for a string (`font.getsize(t)[0]` and `font.getsize(t)[1]`).
  `ImageFont.truetype(font.path, size)` is re-instantiation at a new size,
  i.e. `Font.mk fam size`.
- Python float arithmetic on the fill/shrink ratios is modelled exactly over ℚ.
  `int(x)` (truncation towards zero) of a fraction `num/den` is `pyTrunc`;
  `int(n * q)` is `pyIntTimes`, certified against `Int.floor` below.
- The `while` loops of `write` are modelled with an explicit bound (`fuel`) or
  by structural recursion on the string; `none` marks a run that does not
  terminate (`text = text[0:-1]` on the empty string changes nothing, and the
  autofit search can grow forever when the metrics never reach the threshold).
- Drawing is modelled by the data that reaches the drawing primitives:
  `draw_border` returns the list of line/arc commands it issues, and the
  compositing step of `write` returns the buffer that is passed to
  `image.paste`.
-/

/-- Python strings, as lists of characters. -/
abbrev Str := List Char

/-- A scalable font resource: measured width and height of a string at each
point size (the two components of PIL's `font.getsize`). -/
structure FontFamily where
  w : Nat → Str → Nat
  h : Nat → Str → Nat

/-- A font handle: a family instantiated at a point size. -/
structure Font where
  fam : FontFamily
  size : Nat

/-- The fixed reference string `'hg'` used for line heights. -/
def hgRef : Str := ['h', 'g']

/-- `font.getsize(text)[0]`. -/
def getsizeW (f : Font) (t : Str) : Nat := f.fam.w f.size t

/-- `font.getsize('hg')[1]`, the reference height used throughout `write`. -/
def refHeight (f : Font) : Nat := f.fam.h f.size hgRef

/-- Truncation towards zero of the fraction `num / den`: Python's `int()`
applied to an exact rational value. -/
def pyTrunc (num : ℤ) (den : ℕ) : ℤ :=
  if 0 ≤ num then num / den else -((-num) / den)

/-- Python's `int(n * q)` for a natural `n` and an exact rational `q`
(`n * q = (n * q.num) / q.den`). -/
def pyIntTimes (n : ℕ) (q : ℚ) : ℤ := pyTrunc (n * q.num) q.den

theorem pyTrunc_eq_floor (num : ℤ) (den : ℕ) (h : 0 ≤ num) :
    pyTrunc num den = ⌊(num : ℚ) / (den : ℚ)⌋ := by
  rw [pyTrunc, if_pos h, Rat.floor_intCast_div_natCast]

theorem pyIntTimes_eq_floor (n : ℕ) (q : ℚ) (hq : 0 ≤ q) :
    pyIntTimes n q = ⌊(n : ℚ) * q⌋ := by
  have hnum : 0 ≤ q.num := Rat.num_nonneg.2 hq
  have h1 : (n : ℚ) * q = ((n * q.num : ℤ) : ℚ) / ((q.den : ℕ) : ℚ) := by
    conv_lhs => rw [← Rat.num_div_den q]
    push_cast
    ring
  rw [pyIntTimes, pyTrunc, if_pos (mul_nonneg (Int.natCast_nonneg n) hnum), h1,
    Rat.floor_intCast_div_natCast]

theorem pyIntTimes_mono (q : ℚ) (hq : 0 ≤ q) {n₁ n₂ : ℕ} (h : n₁ ≤ n₂) :
    pyIntTimes n₁ q ≤ pyIntTimes n₂ q := by
  have hnum : 0 ≤ q.num := Rat.num_nonneg.2 hq
  have h₁ : 0 ≤ (n₁ : ℤ) * q.num := mul_nonneg (Int.natCast_nonneg n₁) hnum
  have h₂ : 0 ≤ (n₂ : ℤ) * q.num := mul_nonneg (Int.natCast_nonneg n₂) hnum
  simp only [pyIntTimes, pyTrunc, if_pos h₁, if_pos h₂]
  rcases Nat.eq_zero_or_pos q.den with hd | hd
  · simp [hd]
  · exact Int.ediv_le_ediv (by exact_mod_cast hd)
      (mul_le_mul_of_nonneg_right (by exact_mod_cast h) hnum)

/- ------------------------------------------------------------------ -/
/- `write`, lines 67-76: the autofit search.                           -/
/- ------------------------------------------------------------------ -/

/-- Loop condition of the autofit `while` (line 72-73):
`text_width < int(box_width*fill_width) and text_height < int(box_height*fill_height)`,
with the thresholds already computed as `A` and `B`. -/
def autofitCond (fam : FontFamily) (text : Str) (A B : ℤ) (size : Nat) : Prop :=
  (fam.w size text : ℤ) < A ∧ (fam.h size hgRef : ℤ) < B

instance (fam : FontFamily) (text : Str) (A B : ℤ) (size : Nat) :
    Decidable (autofitCond fam text A B size) :=
  inferInstanceAs (Decidable (_ ∧ _))

/-- The autofit `while` loop (lines 72-76): grow the size by one while the
condition holds.  `fuel` bounds the number of iterations; `none` means the
loop has not exited within that bound (with enough fuel, that it diverges). -/
def write_fontsize_loop (fam : FontFamily) (text : Str) (A B : ℤ) :
    Nat → Nat → Option Nat
  | 0, _ => none
  | fuel + 1, size =>
    if autofitCond fam text A B size then
      write_fontsize_loop fam text A B fuel (size + 1)
    else some size

/-- Guard of the autofit block (line 68):
`(autofit == True) or (fill_width != 1.0) or (fill_height != 0.8)`.
The float defaults `1.0` and `0.8` are the exact rationals `1` and `4/5`. -/
def autofitTriggered (autofit : Bool) (fill_width fill_height : ℚ) : Prop :=
  autofit = true ∨ fill_width ≠ 1 ∨ fill_height ≠ mkRat 4 5

instance (autofit : Bool) (fill_width fill_height : ℚ) :
    Decidable (autofitTriggered autofit fill_width fill_height) :=
  inferInstanceAs (Decidable (_ ∨ _ ∨ _))

/-- Lines 67-76 of `write`: the font size in effect after the autofit block.
When the guard is off the caller's font (at size `size₀`) is kept; otherwise
the search starts at size 8. -/
def write_fontsize (fam : FontFamily) (size₀ : Nat) (box_width box_height : Nat)
    (autofit : Bool) (fill_width fill_height : ℚ) (text : Str) (fuel : Nat) :
    Option Nat :=
  if autofitTriggered autofit fill_width fill_height then
    write_fontsize_loop fam text (pyIntTimes box_width fill_width)
      (pyIntTimes box_height fill_height) fuel 8
  else some size₀

/- ------------------------------------------------------------------ -/
/- `write`, lines 81-87: truncation.                                   -/
/- ------------------------------------------------------------------ -/

/-- Python tuple comparison `(a, b) > (c, d)`: lexicographic, not
component-wise. -/
def pyPairGt (a b c d : Nat) : Prop := c < a ∨ (a = c ∧ d < b)

instance (a b c d : Nat) : Decidable (pyPairGt a b c d) :=
  inferInstanceAs (Decidable (_ ∨ _))

/-- Condition of the truncation loop (lines 82 and 84):
`(text_width, text_height) > (box_width, box_height)` in Python, i.e.
lexicographic comparison of the measured pair against the box. -/
def truncCond (f : Font) (box_width box_height : Nat) (t : Str) : Prop :=
  pyPairGt (getsizeW f t) (refHeight f) box_width box_height

instance (f : Font) (bw bh : Nat) (t : Str) : Decidable (truncCond f bw bh t) :=
  inferInstanceAs (Decidable (pyPairGt _ _ _ _))

/-- The truncation `while` loop (lines 84-86): drop the last character while
the lexicographic condition holds.  `fuel` starts at the string length (each
pass removes exactly one character); `none` is the run that never exits -
dropping from the empty string leaves the measurement, hence the condition,
unchanged. -/
def write_truncate_go (f : Font) (box_width box_height : Nat) (fuel : Nat)
    (t : Str) : Option Str :=
  if truncCond f box_width box_height t then
    match t, fuel with
    | [], _ => none
    | _ :: _, 0 => none
    | _ :: _, fuel + 1 => write_truncate_go f box_width box_height fuel t.dropLast
  else some t

/-- Lines 81-87 of `write`: the text left after the truncation loop. -/
def write_truncate (f : Font) (box_width box_height : Nat) (text : Str) :
    Option Str :=
  write_truncate_go f box_width box_height text.length text

/- ------------------------------------------------------------------ -/
/- `write`, lines 89-97: alignment.                                    -/
/- ------------------------------------------------------------------ -/

/-- Lines 90-95 of `write`.  `alignment == "center" or None` is truthy exactly
when `alignment == "center"`; when no branch matches, `x` keeps the value it
got from `xy` on line 64.  `int(box_width/2 - text_width/2)` truncates
`(box_width - text_width)/2` towards zero, i.e. `Int.tdiv`. -/
def write_align_x (alignment : Str) (x : ℤ) (box_width text_width : Nat) : ℤ :=
  if alignment = "center".toList then
    Int.tdiv ((box_width : ℤ) - (text_width : ℤ)) 2
  else if alignment = "left".toList then 0
  else if alignment = "right".toList then (box_width : ℤ) - (text_width : ℤ)
  else x

/-- Line 97 of `write`: `y = int((box_height / 2) - (text_height / 2))`,
unconditionally. -/
def write_align_y (box_height text_height : Nat) : ℤ :=
  Int.tdiv ((box_height : ℤ) - (text_height : ℤ)) 2

/- ------------------------------------------------------------------ -/
/- `write`, lines 99-115: scratch layer, rotation, compositing.        -/
/- ------------------------------------------------------------------ -/

/-- A raster buffer, by its dimensions (what `Image.new('RGBA', box_size)`
fixes and what `rotate(angle, expand=True)` changes). -/
structure Img where
  width : Nat
  height : Nat
deriving DecidableEq, Repr

/-- Lines 111-115 of `write`: the buffer handed to `image.paste`.
Line 112 evaluates `space.rotate(rotation, expand=True)` - PIL's `rotate`
returns a new image and leaves `space` untouched - and does not bind the
result; line 115 then pastes `space`. -/
def write_paste (rotateFn : Img → ℤ → Img) (rotation : Option ℤ) (space : Img) :
    Img :=
  match rotation with
  | some angle =>
    let _rotated := rotateFn space angle
    space
  | none => space

/-- What `write` computes for one call: final font size, drawn text, text
offsets inside the scratch layer, and the buffer that is composited. -/
structure WriteResult where
  size : Nat
  text : Str
  x : ℤ
  y : ℤ
  pasted : Img
deriving DecidableEq, Repr

/-- The `write` pipeline (lines 64-115), composed from the stages above.
The mutated target image and the colour are omitted: the claims are about the
text, the offsets and the composited buffer.  `none` propagates a loop that
does not exit. -/
def write (xy : ℤ × ℤ) (box_size : Nat × Nat) (text : Str) (fam : FontFamily)
    (size₀ : Nat) (alignment : Str) (autofit : Bool)
    (fill_width fill_height : ℚ) (rotation : Option ℤ)
    (rotateFn : Img → ℤ → Img) (fuel : Nat) : Option WriteResult :=
  (write_fontsize fam size₀ box_size.1 box_size.2 autofit fill_width
      fill_height text fuel).bind fun size =>
    (write_truncate ⟨fam, size⟩ box_size.1 box_size.2 text).map fun t =>
      { size := size
        text := t
        x := write_align_x alignment xy.1 box_size.1 (getsizeW ⟨fam, size⟩ t)
        y := write_align_y box_size.2 (refHeight ⟨fam, size⟩)
        pasted := write_paste rotateFn rotation ⟨box_size.1, box_size.2⟩ }

/- ------------------------------------------------------------------ -/
/- `text_wrap`, lines 118-147.                                         -/
/- ------------------------------------------------------------------ -/

/-- Python's `text.split(' ')`: split on every single space, keeping empty
chunks (`''.split(' ') == ['']`, `'a  b'.split(' ') == ['a', '', 'b']`). -/
def splitSp : Str → List Str
  | [] => [[]]
  | c :: rest =>
    if c = ' ' then [] :: splitSp rest
    else
      match splitSp rest with
      | [] => [[c]]
      | w :: ws => (c :: w) :: ws

/-- Inner `while` of `text_wrap` (lines 140-142): greedily append words to
`line` (each followed by a space) while `font.getsize(line + words[i])[0]`
stays within `max_width`.  Returns the accumulated line and the words left. -/
def text_wrap_line (f : Font) (max_width : Nat) (line : Str) :
    List Str → Str × List Str
  | [] => (line, [])
  | w :: rest =>
    if getsizeW f (line ++ w) ≤ max_width then
      text_wrap_line f max_width (line ++ w ++ [' ']) rest
    else (line, w :: rest)

/-- Outer `while` of `text_wrap` (lines 138-146): run the inner loop from an
empty line; if it consumed nothing (`if not line:`), force-emit the next word
alone.  `fuel` starts at the word count; every round consumes at least one
word, so the `0, _ :: _` branch is never reached from `text_wrap`. -/
def text_wrap_lines (f : Font) (max_width : Nat) : Nat → List Str → List Str
  | _, [] => []
  | 0, _ :: _ => []
  | fuel + 1, w :: rest₀ =>
    if (text_wrap_line f max_width [] (w :: rest₀)).1 = [] then
      w :: text_wrap_lines f max_width fuel rest₀
    else
      (text_wrap_line f max_width [] (w :: rest₀)).1 ::
        text_wrap_lines f max_width fuel
          (text_wrap_line f max_width [] (w :: rest₀)).2

/-- `text_wrap(text, font, max_width)` (lines 118-147): one line when the
whole text measures strictly below `max_width`, otherwise the greedy
word-packing of its space-separated chunks. -/
def text_wrap (text : Str) (f : Font) (max_width : Nat) : List Str :=
  if getsizeW f text < max_width then [text]
  else text_wrap_lines f max_width (splitSp text).length (splitSp text)

/-- The words of a list of lines: split every line on spaces, concatenate,
drop empty chunks. -/
def wordsOf (lines : List Str) : List Str :=
  ((lines.map splitSp).flatten).filter fun w => !w.isEmpty

/- ------------------------------------------------------------------ -/
/- `draw_border`, lines 149-206.                                       -/
/- ------------------------------------------------------------------ -/

/-- A drawing primitive issued by `draw_border`: a straight line between two
points, or an arc inside the bounding box `c₁`-`c₂` between two angles. -/
inductive DrawCmd where
  | line (p q : ℤ × ℤ) (width : ℤ)
  | arc (c₁ c₂ : ℤ × ℤ) (startAngle endAngle : ℤ) (width : ℤ)
deriving DecidableEq, Repr

/-- `draw_border(image, xy, size, radius, thickness, shrinkage)`: the list of
drawing commands issued, in source order (lines 174-206).
`int(size[0]*(1-shrinkage[0]))` is computed exactly: for the rational
`s = shrinkage[0]`, `1 - s = (s.den - s.num)/s.den`, so the Python value is
`pyTrunc (size[0]*(s.den - s.num)) s.den`; likewise for the height.  The
constant `colour='black'` is omitted.  No input is rejected: every call
produces four lines, plus four arcs when `radius != 0`. -/
def draw_border (xy : ℤ × ℤ) (size : ℤ × ℤ) (radius thickness : ℤ)
    (shrinkage : ℚ × ℚ) : List DrawCmd :=
  let width := pyTrunc (size.1 * ((shrinkage.1.den : ℤ) - shrinkage.1.num)) shrinkage.1.den
  let height := pyTrunc (size.2 * ((shrinkage.2.den : ℤ) - shrinkage.2.num)) shrinkage.2.den
  let offset_x := Int.tdiv (size.1 - width) 2
  let offset_y := Int.tdiv (size.2 - height) 2
  let x := xy.1 + offset_x
  let y := xy.2 + offset_y
  let diameter := radius * 2
  let a := width - diameter
  let b := height - diameter
  let p1 := (x + radius, y)
  let p2 := (x + radius + a, y)
  let p3 := (x + width, y + radius)
  let p4 := (x + width, y + radius + b)
  let p5 := (p2.1, y + height)
  let p6 := (p1.1, y + height)
  let p7 := (x, p4.2)
  let p8 := (x, p3.2)
  let c1 := (x, y)
  let c2 := (x + diameter, y + diameter)
  let c3 := (x + width - diameter, y)
  let c4 := (x + width, y + diameter)
  let c5 := (x + width - diameter, y + height - diameter)
  let c6 := (x + width, y + height)
  let c7 := (x, y + height - diameter)
  let c8 := (x + diameter, y + height)
  [DrawCmd.line p1 p2 thickness, DrawCmd.line p3 p4 thickness,
   DrawCmd.line p5 p6 thickness, DrawCmd.line p7 p8 thickness] ++
    (if radius ≠ 0 then
      [DrawCmd.arc c1 c2 180 270 thickness, DrawCmd.arc c3 c4 270 360 thickness,
       DrawCmd.arc c5 c6 0 90 thickness, DrawCmd.arc c7 c8 90 180 thickness]
    else [])

/- ------------------------------------------------------------------ -/
/- Concrete instances used by witnesses and counterexamples.           -/
/- ------------------------------------------------------------------ -/

/-- A family whose width is the character count and whose height is 1 at
every size. -/
def lenFam : FontFamily := ⟨fun _ t => t.length, fun _ _ => 1⟩

/-- `lenFam` instantiated at size 10. -/
def fontLen1 : Font := ⟨lenFam, 10⟩

/-- A family whose width is the character count and whose reference height is
100 at every size. -/
def tallFam : FontFamily := ⟨fun _ t => t.length, fun _ _ => 100⟩

/-- `tallFam` instantiated at size 10. -/
def fontTall : Font := ⟨tallFam, 10⟩

/-- A degenerate family that measures 0 everywhere (the "zero-width font" of
the spec). -/
def famZero : FontFamily := ⟨fun _ _ => 0, fun _ _ => 0⟩

/-- A family measuring width 10 up to size 8 and 11 above it, height 1. -/
def famStep : FontFamily := ⟨fun s _ => if s ≤ 8 then 10 else 11, fun _ _ => 1⟩

/-- A family whose width and height both equal the point size. -/
def famLin : FontFamily := ⟨fun s _ => s, fun s _ => s⟩

/-- A model of PIL `rotate(angle, expand=True)` for a quarter turn: the
bounding box swaps its sides. -/
def rotateSwap : Img → ℤ → Img := fun im _ => ⟨im.height, im.width⟩

/- ------------------------------------------------------------------ -/
/- Helper lemmas: the truncation loop.                                 -/
/- ------------------------------------------------------------------ -/

theorem write_truncate_go_spec (f : Font) (bw bh : Nat) :
    ∀ (fuel : Nat) (t t' : Str), write_truncate_go f bw bh fuel t = some t' →
      (¬ truncCond f bw bh t → t' = t)
      ∧ (truncCond f bw bh t → t'.length < t.length)
      ∧ ¬ truncCond f bw bh t'
      ∧ ∃ u, t = t' ++ u := by
  intro fuel
  induction fuel with
  | zero =>
    intro t t' h
    rw [write_truncate_go.eq_def] at h
    by_cases hc : truncCond f bw bh t
    · rw [if_pos hc] at h
      cases t <;> simp at h
    · rw [if_neg hc] at h
      obtain rfl : t = t' := by simpa using h
      exact ⟨fun _ => rfl, fun hcc => absurd hcc hc, hc, ⟨[], (List.append_nil _).symm⟩⟩
  | succ fuel ih =>
    intro t t' h
    rw [write_truncate_go.eq_def] at h
    by_cases hc : truncCond f bw bh t
    · rw [if_pos hc] at h
      cases t with
      | nil => simp at h
      | cons c rest =>
        obtain ⟨_, _, h3, u, hu⟩ := ih _ t' h
        have hlen : t'.length ≤ ((c :: rest).dropLast).length := by
          rw [hu, List.length_append]
          omega
        have hlt : t'.length < (c :: rest).length := by
          rw [List.length_dropLast] at hlen
          simp only [List.length_cons] at *
          omega
        refine ⟨fun hnc => absurd hc hnc, fun _ => hlt, h3,
          u ++ [(c :: rest).getLast (by simp)], ?_⟩
        conv_lhs => rw [← List.dropLast_append_getLast (l := c :: rest) (by simp)]
        rw [hu, List.append_assoc]
    · rw [if_neg hc] at h
      obtain rfl : t = t' := by simpa using h
      exact ⟨fun _ => rfl, fun hcc => absurd hcc hc, hc, ⟨[], (List.append_nil _).symm⟩⟩

/- ------------------------------------------------------------------ -/
/- Claim C1.                                                           -/
/- ------------------------------------------------------------------ -/

/-- C1, counterexample: with a font whose reference height is 100, a box
`(10, 10)` and text of measured width 3, the claim's trigger holds (the
reference height 100 exceeds the box height 10) - yet the code does not
truncate at all (the lexicographic tuple comparison is false), and the text
it goes on to draw still has reference height above the box height,
contradicting the claimed post-state of the loop. -/
theorem write_truncate_not_componentwise :
    getsizeW fontTall ['a', 'b', 'c'] ≤ 10
    ∧ 10 < refHeight fontTall
    ∧ write_truncate fontTall 10 10 ['a', 'b', 'c'] = some ['a', 'b', 'c'] := by
  decide

/-- C1, amended: truncation is triggered exactly when the measured pair
`(width, reference height)` exceeds `(box_width, box_height)`
lexicographically (Python tuple `>`); while that holds and the string is
nonempty the last character is dropped; when the loop exits, the remaining
text no longer exceeds the box lexicographically (so its width is at most the
box width, but its reference height may still exceed the box height), and it
is an initial segment of the input. -/
theorem write_truncate_lex (f : Font) (bw bh : Nat) (t t' : Str)
    (h : write_truncate f bw bh t = some t') :
    (¬ truncCond f bw bh t → t' = t)
    ∧ (truncCond f bw bh t → t'.length < t.length)
    ∧ ¬ truncCond f bw bh t'
    ∧ ∃ u, t = t' ++ u :=
  write_truncate_go_spec f bw bh t.length t t' h

/-- C1, witness: `write_truncate` on `"abc"` in a `2 × 1` box with the
unit-width font drops exactly one character. -/
theorem write_truncate_lex_witness :
    (¬ truncCond fontLen1 2 1 ['a', 'b', 'c'] → (['a', 'b'] : Str) = ['a', 'b', 'c'])
    ∧ (truncCond fontLen1 2 1 ['a', 'b', 'c'] →
        (['a', 'b'] : Str).length < (['a', 'b', 'c'] : Str).length)
    ∧ ¬ truncCond fontLen1 2 1 ['a', 'b']
    ∧ ∃ u, (['a', 'b', 'c'] : Str) = ['a', 'b'] ++ u :=
  write_truncate_lex fontLen1 2 1 ['a', 'b', 'c'] ['a', 'b'] (by decide)

/- ------------------------------------------------------------------ -/
/- Claim C2.                                                           -/
/- ------------------------------------------------------------------ -/

/-- C2: the buffer composited by `write` is always the unrotated scratch
layer - line 112 computes `space.rotate(rotation, expand=True)` but discards
the returned image, so with `rotation = 90` on a `100 × 40` scratch layer the
pasted buffer differs from the rotated one the claim requires. -/
theorem write_paste_unrotated :
    (∀ (rotateFn : Img → ℤ → Img) (rotation : Option ℤ) (space : Img),
        write_paste rotateFn rotation space = space)
    ∧ write_paste rotateSwap (some 90) ⟨100, 40⟩ = Img.mk 100 40
    ∧ rotateSwap ⟨100, 40⟩ 90 = Img.mk 40 100
    ∧ Img.mk 100 40 ≠ Img.mk 40 100 := by
  refine ⟨fun rotateFn rotation space => ?_, rfl, rfl, by decide⟩
  cases rotation <;> rfl

/- ------------------------------------------------------------------ -/
/- Claim C3.                                                           -/
/- ------------------------------------------------------------------ -/

/-- C3, counterexample: for the unrecognized alignment value `"top"` the
horizontal offset is the caller's `x` coordinate (here 7), not the centering
offset `(box_width - text_width)/2 = 45` the claim asserts. -/
theorem write_align_unrecognized_cex :
    write_align_x "top".toList 7 100 10 = 7
    ∧ write_align_x "top".toList 7 100 10 ≠ Int.tdiv ((100 : ℤ) - 10) 2 := by
  decide

/-- C3, amended: the horizontal offset is 0 for `'left'`,
`box_width - text_width` for `'right'`, `(box_width - text_width)/2`
(truncated towards zero) for `'center'`; for every unrecognized alignment
value `x` keeps the caller-supplied coordinate.  The vertical offset is
always `(box_height - text_height)/2` truncated towards zero. -/
theorem write_align_spec (al : Str) (x : ℤ) (bw tw bh th : Nat)
    (h₁ : al ≠ "center".toList) (h₂ : al ≠ "left".toList)
    (h₃ : al ≠ "right".toList) :
    write_align_x "left".toList x bw tw = 0
    ∧ write_align_x "right".toList x bw tw = (bw : ℤ) - (tw : ℤ)
    ∧ write_align_x "center".toList x bw tw = Int.tdiv ((bw : ℤ) - (tw : ℤ)) 2
    ∧ write_align_x al x bw tw = x
    ∧ write_align_y bh th = Int.tdiv ((bh : ℤ) - (th : ℤ)) 2 := by
  refine ⟨?_, ?_, ?_, ?_, rfl⟩
  · rw [write_align_x, if_neg (by decide), if_pos rfl]
  · rw [write_align_x, if_neg (by decide), if_neg (by decide), if_pos rfl]
  · rw [write_align_x, if_pos rfl]
  · rw [write_align_x, if_neg h₁, if_neg h₂, if_neg h₃]

/-- C3, witness: the amended alignment rules at `x = 7`, a `100 × 40` box,
text size `10 × 20`, and the unrecognized value `"top"`. -/
theorem write_align_spec_witness :
    write_align_x "left".toList 7 100 10 = 0
    ∧ write_align_x "right".toList 7 100 10 = ((100 : Nat) : ℤ) - ((10 : Nat) : ℤ)
    ∧ write_align_x "center".toList 7 100 10 =
        Int.tdiv (((100 : Nat) : ℤ) - ((10 : Nat) : ℤ)) 2
    ∧ write_align_x "top".toList 7 100 10 = 7
    ∧ write_align_y 40 20 = Int.tdiv (((40 : Nat) : ℤ) - ((20 : Nat) : ℤ)) 2 :=
  write_align_spec "top".toList 7 100 10 40 20 (by decide) (by decide) (by decide)

/- ------------------------------------------------------------------ -/
/- Claim C5.                                                           -/
/- ------------------------------------------------------------------ -/

theorem famZero_loop_none (t : Str) (A B : ℤ) (hA : 0 < A) (hB : 0 < B) :
    ∀ (fuel s : Nat), write_fontsize_loop famZero t A B fuel s = none := by
  intro fuel
  induction fuel with
  | zero => intro s; rfl
  | succ fuel ih =>
    intro s
    have hc : autofitCond famZero t A B s := by
      simp only [autofitCond, famZero]
      exact ⟨by exact_mod_cast hA, by exact_mod_cast hB⟩
    rw [write_fontsize_loop, if_pos hc]
    exact ih (s + 1)

/-- C5: both loops of `write` can fail to terminate on degenerate input, so
the claim that they terminate for every input is false of the code.  The
truncation loop with a `(0, 0)` box never exits: once the string is empty the
measurement - hence the loop condition - no longer changes (`none` in the
model).  The autofit loop with a zero-metric font and a positive box never
exits either, no matter how many iterations are allowed. -/
theorem write_loops_can_diverge :
    write_truncate fontLen1 0 0 ['a'] = none
    ∧ ∀ fuel : Nat,
        write_fontsize famZero 12 10 10 true 1 (mkRat 4 5) ['a'] fuel = none := by
  refine ⟨by decide, fun fuel => ?_⟩
  have htrig : autofitTriggered true 1 (mkRat 4 5) := Or.inl rfl
  rw [write_fontsize, if_pos htrig]
  exact famZero_loop_none ['a'] _ _ (by decide) (by decide) fuel 8

/- ------------------------------------------------------------------ -/
/- Claim C8.                                                           -/
/- ------------------------------------------------------------------ -/

/-- C8: whenever `write` completes, the text it draws is an initial segment
of the input string, and its length never exceeds the input's length. -/
theorem write_drawn_text_shortens (xy : ℤ × ℤ) (box_size : Nat × Nat)
    (text : Str) (fam : FontFamily) (size₀ : Nat) (alignment : Str)
    (autofit : Bool) (fill_width fill_height : ℚ) (rotation : Option ℤ)
    (rotateFn : Img → ℤ → Img) (fuel : Nat) (r : WriteResult)
    (h : write xy box_size text fam size₀ alignment autofit fill_width
      fill_height rotation rotateFn fuel = some r) :
    (∃ u, text = r.text ++ u) ∧ r.text.length ≤ text.length := by
  rw [write] at h
  rcases Option.bind_eq_some.1 h with ⟨size, _, h2⟩
  rcases Option.map_eq_some'.1 h2 with ⟨t, htr, hr⟩
  obtain ⟨-, -, -, u, hu⟩ :=
    write_truncate_go_spec ⟨fam, size⟩ box_size.1 box_size.2 text.length text t htr
  have htext : r.text = t := by rw [← hr]
  refine ⟨⟨u, by rw [htext, ← hu]⟩, ?_⟩
  rw [htext, hu, List.length_append]
  omega

/-- C8, witness: the full `write` pipeline on `"abc"` in a `2 × 1` box draws
`"ab"`, an initial segment of the input. -/
theorem write_drawn_text_shortens_witness :
    (∃ u, (['a', 'b', 'c'] : Str) = ['a', 'b'] ++ u)
    ∧ (['a', 'b'] : Str).length ≤ (['a', 'b', 'c'] : Str).length :=
  write_drawn_text_shortens (0, 0) (2, 1) ['a', 'b', 'c'] lenFam 1
    "center".toList false 1 (mkRat 4 5) none (fun im _ => im) 0
    ⟨1, ['a', 'b'], 0, 0, ⟨2, 1⟩⟩ (by decide)

/- ------------------------------------------------------------------ -/
/- Claim C9.                                                           -/
/- ------------------------------------------------------------------ -/

/-- C9: `draw_border` performs no validation.  With `size = (20, 20)`,
`radius = 15` and 10% shrinkage the inset box is `18 × 18`, so
`radius * 2 = 30` exceeds it - degenerate geometry - yet the call reports no
error and silently issues all eight drawing commands: the horizontal edges
run backwards (`p2` left of `p1`) and the four arc bounding boxes overlap
and spill outside the inset box. -/
theorem draw_border_degenerate_silently_draws :
    pyTrunc (20 * (((mkRat 1 10).den : ℤ) - (mkRat 1 10).num)) (mkRat 1 10).den = 18
    ∧ (18 : ℤ) < 15 * 2
    ∧ draw_border (0, 0) (20, 20) 15 1 (mkRat 1 10, mkRat 1 10) =
      [DrawCmd.line (16, 1) (4, 1) 1, DrawCmd.line (19, 16) (19, 4) 1,
       DrawCmd.line (4, 19) (16, 19) 1, DrawCmd.line (1, 4) (1, 16) 1,
       DrawCmd.arc (1, 1) (31, 31) 180 270 1,
       DrawCmd.arc (-11, 1) (19, 31) 270 360 1,
       DrawCmd.arc (-11, -11) (19, 19) 0 90 1,
       DrawCmd.arc (1, -11) (31, 19) 90 180 1] := by
  decide

/- ------------------------------------------------------------------ -/
/- Helper lemmas: splitting on spaces.                                 -/
/- ------------------------------------------------------------------ -/

theorem splitSp_ne_nil (t : Str) : splitSp t ≠ [] := by
  induction t with
  | nil => simp [splitSp]
  | cons c rest ih =>
    by_cases h : c = ' '
    · simp [splitSp, h]
    · simp only [splitSp, if_neg h]
      cases hs : splitSp rest with
      | nil => exact absurd hs ih
      | cons w ws => simp

theorem splitSp_sep (a b : Str) :
    splitSp (a ++ ' ' :: b) = splitSp a ++ splitSp b := by
  induction a with
  | nil => simp [splitSp]
  | cons c a' ih =>
    by_cases h : c = ' '
    · subst h
      simp [splitSp, ih]
    · simp only [List.cons_append, splitSp, if_neg h]
      cases hs : splitSp a' with
      | nil => exact absurd hs (splitSp_ne_nil a')
      | cons w ws =>
        simp only [List.append_eq]
        rw [ih, hs]
        simp

theorem splitSp_no_space (t : Str) : ∀ w ∈ splitSp t, ' ' ∉ w := by
  induction t with
  | nil =>
    intro w hw
    simp [splitSp] at hw
    subst hw
    simp
  | cons c rest ih =>
    intro w hw
    by_cases h : c = ' '
    · simp only [splitSp, if_pos h, List.mem_cons] at hw
      rcases hw with rfl | hw
      · simp
      · exact ih w hw
    · simp only [splitSp, if_neg h] at hw
      cases hs : splitSp rest with
      | nil => exact absurd hs (splitSp_ne_nil rest)
      | cons v vs =>
        rw [hs] at hw
        simp only [List.mem_cons] at hw
        rcases hw with rfl | hw
        · intro hmem
          rcases List.mem_cons.1 hmem with he | hv
          · exact h he.symm
          · exact ih v (by rw [hs]; exact List.mem_cons_self _ _) hv
        · exact ih w (by rw [hs]; exact List.mem_cons_of_mem _ hw)

theorem splitSp_eq_self (w : Str) (h : ' ' ∉ w) : splitSp w = [w] := by
  induction w with
  | nil => rfl
  | cons c cs ih =>
    have hc : ¬ c = ' ' := fun hcc => h (List.mem_cons.2 (Or.inl hcc.symm))
    have hcs : ' ' ∉ cs := fun hm => h (List.mem_cons_of_mem _ hm)
    simp only [splitSp, if_neg hc, ih hcs]

theorem splitSp_glue (cs : List Str) (h : ∀ c ∈ cs, ' ' ∉ c) :
    splitSp ((cs.map fun w => w ++ [' ']).flatten) = cs ++ [[]] := by
  induction cs with
  | nil => rfl
  | cons c cs' ih =>
    have h1 : ((c :: cs').map fun w => w ++ [' ']).flatten
        = c ++ ' ' :: ((cs'.map fun w => w ++ [' ']).flatten) := by
      simp
    rw [h1, splitSp_sep, splitSp_eq_self c (h c (List.mem_cons_self _ _)),
      ih (fun d hd => h d (List.mem_cons_of_mem _ hd))]
    simp

/- ------------------------------------------------------------------ -/
/- Helper lemmas: the two loops of `text_wrap`.                        -/
/- ------------------------------------------------------------------ -/

theorem text_wrap_line_decomp (f : Font) (W : Nat) :
    ∀ (ws : List Str) (l : Str), ∃ cs rest,
      text_wrap_line f W l ws = (l ++ (cs.map fun w => w ++ [' ']).flatten, rest)
      ∧ ws = cs ++ rest := by
  intro ws
  induction ws with
  | nil => intro l; exact ⟨[], [], by simp [text_wrap_line], rfl⟩
  | cons w rest ih =>
    intro l
    by_cases h : getsizeW f (l ++ w) ≤ W
    · obtain ⟨cs, rest', heq, hws⟩ := ih (l ++ w ++ [' '])
      refine ⟨w :: cs, rest', ?_, by simp [hws]⟩
      rw [text_wrap_line, if_pos h, heq]
      simp
    · exact ⟨[], w :: rest, by rw [text_wrap_line, if_neg h]; simp, rfl⟩

theorem text_wrap_line_shape (f : Font) (W : Nat) :
    ∀ (ws : List Str) (l : Str),
      (text_wrap_line f W l ws).1 = l
      ∨ ((text_wrap_line f W l ws).1.getLast? = some ' '
          ∧ getsizeW f (text_wrap_line f W l ws).1.dropLast ≤ W) := by
  intro ws
  induction ws with
  | nil => intro l; left; rw [text_wrap_line]
  | cons w rest ih =>
    intro l
    by_cases h : getsizeW f (l ++ w) ≤ W
    · rcases ih (l ++ w ++ [' ']) with h1 | h1
      · right
        rw [text_wrap_line, if_pos h, h1]
        exact ⟨List.getLast?_concat _, by rw [List.dropLast_concat]; exact h⟩
      · right
        rw [text_wrap_line, if_pos h]
        exact h1
    · left
      rw [text_wrap_line, if_neg h]

theorem text_wrap_line_nil_fail (f : Font) (W : Nat) (w : Str) (rest : List Str)
    (h : (text_wrap_line f W [] (w :: rest)).1 = []) : W < getsizeW f w := by
  by_contra hle
  push_neg at hle
  have hw : getsizeW f ([] ++ w) ≤ W := by simpa using hle
  rw [text_wrap_line, if_pos hw] at h
  rcases text_wrap_line_shape f W rest ([] ++ w ++ [' ']) with h1 | h1
  · rw [h1] at h
    simp at h
  · rw [h] at h1
    simp at h1

theorem text_wrap_lines_shape (f : Font) (W : Nat) :
    ∀ (fuel : Nat) (ws : List Str) (L : Str), L ∈ text_wrap_lines f W fuel ws →
      (∃ w, w ∈ ws ∧ L = w ∧ W < getsizeW f w)
      ∨ (L.getLast? = some ' ' ∧ getsizeW f L.dropLast ≤ W) := by
  intro fuel
  induction fuel with
  | zero =>
    intro ws L hL
    cases ws <;> simp [text_wrap_lines] at hL
  | succ fuel ih =>
    intro ws L hL
    cases ws with
    | nil => simp [text_wrap_lines] at hL
    | cons w rest₀ =>
      rw [text_wrap_lines] at hL
      by_cases hp : (text_wrap_line f W [] (w :: rest₀)).1 = []
      · rw [if_pos hp] at hL
        rcases List.mem_cons.1 hL with rfl | hL'
        · exact Or.inl ⟨L, List.mem_cons_self _ _, rfl,
            text_wrap_line_nil_fail f W L rest₀ hp⟩
        · rcases ih rest₀ L hL' with ⟨v, hv, hLv, hwv⟩ | h2
          · exact Or.inl ⟨v, List.mem_cons_of_mem _ hv, hLv, hwv⟩
          · exact Or.inr h2
      · rw [if_neg hp] at hL
        rcases List.mem_cons.1 hL with rfl | hL'
        · rcases text_wrap_line_shape f W (w :: rest₀) [] with h1 | h1
          · exact absurd h1 hp
          · exact Or.inr h1
        · obtain ⟨cs, rest, heq, hws⟩ := text_wrap_line_decomp f W (w :: rest₀) []
          have h2 : (text_wrap_line f W [] (w :: rest₀)).2 = rest := by rw [heq]
          rw [h2] at hL'
          rcases ih rest L hL' with ⟨v, hv, hLv, hwv⟩ | hsh
          · refine Or.inl ⟨v, ?_, hLv, hwv⟩
            rw [hws]
            exact List.mem_append_right _ hv
          · exact Or.inr hsh

theorem text_wrap_lines_tokens (f : Font) (W : Nat) :
    ∀ (fuel : Nat) (ws : List Str), (∀ w ∈ ws, ' ' ∉ w) → ws.length ≤ fuel →
      wordsOf (text_wrap_lines f W fuel ws)
        = ws.filter (fun w => !w.isEmpty) := by
  intro fuel
  induction fuel with
  | zero =>
    intro ws hsp hlen
    obtain rfl : ws = [] := List.length_eq_zero.1 (Nat.le_zero.1 hlen)
    rfl
  | succ fuel ih =>
    intro ws hsp hlen
    cases ws with
    | nil => rfl
    | cons w rest₀ =>
      by_cases hp : (text_wrap_line f W [] (w :: rest₀)).1 = []
      · rw [text_wrap_lines, if_pos hp]
        have hw : ' ' ∉ w := hsp w (List.mem_cons_self _ _)
        have hrec := ih rest₀ (fun v hv => hsp v (List.mem_cons_of_mem _ hv))
          (by simp only [List.length_cons] at hlen; omega)
        simp only [wordsOf, List.map_cons, List.flatten_cons,
          List.filter_append] at hrec ⊢
        rw [splitSp_eq_self w hw, hrec, List.filter_cons]
        by_cases hwe : w = [] <;> simp [hwe]
      · obtain ⟨cs, rest, heq, hws⟩ := text_wrap_line_decomp f W (w :: rest₀) []
        have hp1 : (text_wrap_line f W [] (w :: rest₀)).1
            = (cs.map fun v => v ++ [' ']).flatten := by rw [heq]; simp
        have hp2 : (text_wrap_line f W [] (w :: rest₀)).2 = rest := by rw [heq]
        have hcs : cs ≠ [] := by
          intro h0
          apply hp
          rw [hp1, h0]
          rfl
        have hcs_mem : ∀ c ∈ cs, ' ' ∉ c := fun c hc =>
          hsp c (by rw [hws]; exact List.mem_append_left _ hc)
        have hrest_mem : ∀ v ∈ rest, ' ' ∉ v := fun v hv =>
          hsp v (by rw [hws]; exact List.mem_append_right _ hv)
        have hlenr : rest.length ≤ fuel := by
          have hl := congrArg List.length hws
          simp only [List.length_cons, List.length_append] at hl
          have hcs1 : 1 ≤ cs.length := by
            cases cs with
            | nil => exact absurd rfl hcs
            | cons _ _ => simp
          simp only [List.length_cons] at hlen
          omega
        rw [text_wrap_lines, if_neg hp, hp1, hp2]
        have hrec := ih rest hrest_mem hlenr
        simp only [wordsOf, List.map_cons, List.flatten_cons,
          List.filter_append] at hrec ⊢
        rw [splitSp_glue cs hcs_mem, hrec, hws]
        simp [List.filter_append]

/- ------------------------------------------------------------------ -/
/- Claim C4.                                                           -/
/- ------------------------------------------------------------------ -/

/-- C4, counterexample: with a unit-width font and `max_width = 5`,
`text_wrap("ab cd")` returns the single line `"ab cd "` (trailing space),
whose measured width is 6 > 5 although it is not a single word; and
re-joining the lines with single spaces does not reconstruct the original
token sequence (the trailing space adds an empty token). -/
theorem text_wrap_overwide_cex :
    text_wrap "ab cd".toList fontLen1 5 = ["ab cd ".toList]
    ∧ ¬ (getsizeW fontLen1 "ab cd ".toList ≤ 5)
    ∧ (splitSp "ab cd ".toList).length ≠ 1
    ∧ splitSp (List.intercalate [' '] (text_wrap "ab cd".toList fontLen1 5))
      ≠ splitSp "ab cd".toList := by
  decide

/-- C4, amended: every line returned by `text_wrap` is the whole text (when
it already measures below `max_width`), or a force-emitted single word wider
than `max_width`, or a greedily built line that ends with a trailing space
and whose measured width *excluding that trailing space* is at most
`max_width` (the full line, trailing space included, may exceed it); and the
sequence of nonempty space-separated tokens of the output, in order, equals
that of the input. -/
theorem text_wrap_spec (text : Str) (f : Font) (W : Nat) (L : Str)
    (hL : L ∈ text_wrap text f W) :
    ((L = text ∧ getsizeW f text < W)
      ∨ (∃ w, w ∈ splitSp text ∧ L = w ∧ W < getsizeW f w)
      ∨ (L.getLast? = some ' ' ∧ getsizeW f L.dropLast ≤ W))
    ∧ wordsOf (text_wrap text f W)
      = (splitSp text).filter (fun w => !w.isEmpty) := by
  rw [text_wrap] at hL ⊢
  by_cases h : getsizeW f text < W
  · rw [if_pos h] at hL ⊢
    refine ⟨Or.inl ⟨by simpa using hL, h⟩, ?_⟩
    simp [wordsOf]
  · rw [if_neg h] at hL ⊢
    refine ⟨?_, text_wrap_lines_tokens f W _ _ (splitSp_no_space text) le_rfl⟩
    rcases text_wrap_lines_shape f W _ _ L hL with hsh | hsh
    · exact Or.inr (Or.inl hsh)
    · exact Or.inr (Or.inr hsh)

/-- C4, witness: the amended statement at the counterexample input: the line
`"ab cd "` ends with a space, fits without it, and the token sequences agree
after dropping empty tokens. -/
theorem text_wrap_spec_witness :
    (("ab cd ".toList = "ab cd".toList ∧ getsizeW fontLen1 "ab cd".toList < 5)
      ∨ (∃ w, w ∈ splitSp "ab cd".toList ∧ "ab cd ".toList = w
          ∧ 5 < getsizeW fontLen1 w)
      ∨ ("ab cd ".toList.getLast? = some ' '
          ∧ getsizeW fontLen1 "ab cd ".toList.dropLast ≤ 5))
    ∧ wordsOf (text_wrap "ab cd".toList fontLen1 5)
      = (splitSp "ab cd".toList).filter (fun w => !w.isEmpty) :=
  text_wrap_spec "ab cd".toList fontLen1 5 "ab cd ".toList (by decide)

/- ------------------------------------------------------------------ -/
/- Claim C10.                                                          -/
/- ------------------------------------------------------------------ -/

/-- C10, counterexample: the greedily built line `"ab cd "` (ends with a
space, spans two words, not force-emitted, not the single-line case) *is* a
contiguous substring of the input `"ab cd ef"`, refuting the claim that such
lines are never substrings of the input. -/
theorem text_wrap_line_substring_cex :
    text_wrap "ab cd ef".toList fontLen1 6 = ["ab cd ".toList, "ef ".toList]
    ∧ "ab cd ".toList.getLast? = some ' '
    ∧ ∃ s u, "ab cd ef".toList = s ++ "ab cd ".toList ++ u :=
  ⟨by decide, by decide, [], ['e', 'f'], by decide⟩

/-- C10, amended: every line `text_wrap` builds by greedy word accumulation -
i.e. every returned line other than a force-emitted single word wider than
`max_width` (the whole-text single-line case being excluded by the
hypothesis) - ends with a trailing space character.  Such lines can still be
substrings of the input, as `text_wrap_line_substring_cex` shows. -/
theorem text_wrap_trailing_space (text : Str) (f : Font) (W : Nat) (L : Str)
    (hfit : W ≤ getsizeW f text) (hL : L ∈ text_wrap text f W) :
    (∃ w, w ∈ splitSp text ∧ L = w ∧ W < getsizeW f w)
    ∨ L.getLast? = some ' ' := by
  rw [text_wrap, if_neg (Nat.not_lt.2 hfit)] at hL
  rcases text_wrap_lines_shape f W _ _ L hL with hsh | hsh
  · exact Or.inl hsh
  · exact Or.inr hsh.1

/-- C10, witness: the trailing-space guarantee at the two-word greedy line
`"ab cd "` of `text_wrap("ab cd", max_width = 5)`. -/
theorem text_wrap_trailing_space_witness :
    (∃ w, w ∈ splitSp "ab cd".toList ∧ "ab cd ".toList = w
        ∧ 5 < getsizeW fontLen1 w)
    ∨ "ab cd ".toList.getLast? = some ' ' :=
  text_wrap_trailing_space "ab cd".toList fontLen1 5 "ab cd ".toList
    (by decide) (by decide)

/- ------------------------------------------------------------------ -/
/- Helper lemmas: the autofit loop.                                    -/
/- ------------------------------------------------------------------ -/

theorem write_fontsize_loop_ge (fam : FontFamily) (text : Str) (A B : ℤ) :
    ∀ (fuel s r : Nat), write_fontsize_loop fam text A B fuel s = some r →
      s ≤ r := by
  intro fuel
  induction fuel with
  | zero =>
    intro s r h
    exact absurd h (by simp [write_fontsize_loop])
  | succ fuel ih =>
    intro s r h
    rw [write_fontsize_loop] at h
    by_cases hc : autofitCond fam text A B s
    · rw [if_pos hc] at h
      exact le_trans (Nat.le_succ s) (ih _ _ h)
    · rw [if_neg hc] at h
      obtain rfl : s = r := by simpa using h
      exact le_rfl

theorem write_fontsize_loop_first (fam : FontFamily) (text : Str) (A B : ℤ) :
    ∀ (fuel s r : Nat), write_fontsize_loop fam text A B fuel s = some r →
      ¬ autofitCond fam text A B r
      ∧ ∀ k, s ≤ k → k < r → autofitCond fam text A B k := by
  intro fuel
  induction fuel with
  | zero =>
    intro s r h
    exact absurd h (by simp [write_fontsize_loop])
  | succ fuel ih =>
    intro s r h
    rw [write_fontsize_loop] at h
    by_cases hc : autofitCond fam text A B s
    · rw [if_pos hc] at h
      obtain ⟨h1, h2⟩ := ih _ _ h
      refine ⟨h1, fun k hks hkr => ?_⟩
      rcases Nat.eq_or_lt_of_le hks with rfl | hlt
      · exact hc
      · exact h2 k hlt hkr
    · rw [if_neg hc] at h
      obtain rfl : s = r := by simpa using h
      exact ⟨hc, fun k hks hkr => absurd (lt_of_le_of_lt hks hkr) (lt_irrefl _)⟩

theorem write_fontsize_loop_mono (fam : FontFamily) (text : Str)
    {A₁ B₁ A₂ B₂ : ℤ} (hA : A₁ ≤ A₂) (hB : B₁ ≤ B₂) :
    ∀ (fuel s s₁ s₂ : Nat),
      write_fontsize_loop fam text A₁ B₁ fuel s = some s₁ →
      write_fontsize_loop fam text A₂ B₂ fuel s = some s₂ → s₁ ≤ s₂ := by
  intro fuel
  induction fuel with
  | zero =>
    intro s s₁ s₂ h1 _
    exact absurd h1 (by simp [write_fontsize_loop])
  | succ fuel ih =>
    intro s s₁ s₂ h1 h2
    rw [write_fontsize_loop] at h1 h2
    by_cases hc1 : autofitCond fam text A₁ B₁ s
    · have hc2 : autofitCond fam text A₂ B₂ s :=
        ⟨lt_of_lt_of_le hc1.1 hA, lt_of_lt_of_le hc1.2 hB⟩
      rw [if_pos hc1] at h1
      rw [if_pos hc2] at h2
      exact ih _ _ _ h1 h2
    · rw [if_neg hc1] at h1
      obtain rfl : s = s₁ := by simpa using h1
      by_cases hc2 : autofitCond fam text A₂ B₂ s
      · rw [if_pos hc2] at h2
        have := write_fontsize_loop_ge fam text A₂ B₂ fuel (s + 1) s₂ h2
        omega
      · rw [if_neg hc2] at h2
        obtain rfl : s = s₂ := by simpa using h2
        exact le_rfl

/- ------------------------------------------------------------------ -/
/- Claim C6.                                                           -/
/- ------------------------------------------------------------------ -/

/-- Modelled from the spec: the AutoFitSizer loop exactly as the claim words
it - grow while `width < box_width·fill_width` and
`height < box_height·fill_height` over the real (rational) products, without
the `int()` truncation the source applies to both thresholds.  Declared only
to compare the claim's wording against the code's loop. -/
def autofit_spec_loop (fam : FontFamily) (text : Str) (wq hq : ℚ) :
    Nat → Nat → Option Nat
  | 0, _ => none
  | fuel + 1, size =>
    if (fam.w size text : ℚ) < wq ∧ (fam.h size hgRef : ℚ) < hq then
      autofit_spec_loop fam text wq hq fuel (size + 1)
    else some size

/-- C6, counterexample: with `box_width·fill_width = 21 · 0.5 = 10.5` and a
font measuring width 10 at size 8 and 11 above, the code's loop (threshold
`int(10.5) = 10`) stops at size 8, while the loop as the claim words it
(threshold `10.5`) continues and stops at size 9.  The claim's growth
condition is therefore not the code's. -/
theorem write_fontsize_int_trunc_cex :
    write_fontsize famStep 12 21 100 false (mkRat 1 2) (mkRat 4 5) ['x'] 5 = some 8
    ∧ autofit_spec_loop famStep ['x'] ((21 : ℚ) * mkRat 1 2)
        ((100 : ℚ) * mkRat 4 5) 5 8 = some 9
    ∧ (8 : ℕ) ≠ 9 := by
  refine ⟨by decide, ?_, by decide⟩
  have h1 : (21 : ℚ) * mkRat 1 2 = mkRat 21 2 := by
    rw [Rat.mkRat_eq_div, Rat.mkRat_eq_div]
    norm_num
  have h2 : (100 : ℚ) * mkRat 4 5 = mkRat 80 1 := by
    rw [Rat.mkRat_eq_div, Rat.mkRat_eq_div]
    norm_num
  rw [h1, h2]
  decide

/-- C6, amended: autofit runs exactly when autofit is requested or a fill
ratio differs from its default (`1.0` / `0.8`); it starts at size 8 and grows
by one while the measured width is below `int(box_width·fill_width)` AND the
reference height is below `int(box_height·fill_height)` (the source truncates
both products to integers); when it completes, the returned size is the first
size ≥ 8 at which that condition fails.  Without the trigger, the caller's
size is returned unchanged. -/
theorem write_fontsize_spec (fam : FontFamily) (size₀ bw bh : Nat)
    (autofit : Bool) (fw fh : ℚ) (text : Str) (fuel : Nat) (s : Nat)
    (h : write_fontsize fam size₀ bw bh autofit fw fh text fuel = some s) :
    (¬ autofitTriggered autofit fw fh → s = size₀)
    ∧ (autofitTriggered autofit fw fh →
        8 ≤ s
        ∧ ¬ autofitCond fam text (pyIntTimes bw fw) (pyIntTimes bh fh) s
        ∧ ∀ k, 8 ≤ k → k < s →
            autofitCond fam text (pyIntTimes bw fw) (pyIntTimes bh fh) k) := by
  rw [write_fontsize] at h
  by_cases ht : autofitTriggered autofit fw fh
  · rw [if_pos ht] at h
    obtain ⟨h1, h2⟩ := write_fontsize_loop_first fam text _ _ fuel 8 s h
    exact ⟨fun hnt => absurd ht hnt,
      fun _ => ⟨write_fontsize_loop_ge fam text _ _ fuel 8 s h, h1, h2⟩⟩
  · rw [if_neg ht] at h
    obtain rfl : size₀ = s := by simpa using h
    exact ⟨fun _ => rfl, fun htt => absurd htt ht⟩

/-- C6, witness: with the size-linear font, a `10 × 10` box, `autofit = True`
and default fill ratios, the loop stops immediately at size 8 (the height
threshold `int(10 · 0.8) = 8` is not below 8). -/
theorem write_fontsize_spec_witness :
    (¬ autofitTriggered true 1 (mkRat 4 5) → (8 : ℕ) = 12)
    ∧ (autofitTriggered true 1 (mkRat 4 5) →
        8 ≤ 8
        ∧ ¬ autofitCond famLin ['x'] (pyIntTimes 10 1) (pyIntTimes 10 (mkRat 4 5)) 8
        ∧ ∀ k, 8 ≤ k → k < 8 →
            autofitCond famLin ['x'] (pyIntTimes 10 1) (pyIntTimes 10 (mkRat 4 5)) k) :=
  write_fontsize_spec famLin 12 10 10 true 1 (mkRat 4 5) ['x'] 20 8 (by decide)

/- ------------------------------------------------------------------ -/
/- Claim C7.                                                           -/
/- ------------------------------------------------------------------ -/

/-- C7: the autofit search is monotone in the box.  For the same font family,
text, fill ratios (nonnegative), autofit flag and iteration bound, a strictly
larger box never yields a strictly smaller chosen font size. -/
theorem write_fontsize_monotone (fam : FontFamily) (size₀ : Nat)
    (autofit : Bool) (fw fh : ℚ) (text : Str) (fuel : Nat)
    (bw₁ bh₁ bw₂ bh₂ s₁ s₂ : Nat)
    (hw : bw₁ < bw₂) (hh : bh₁ < bh₂) (hfw : 0 ≤ fw) (hfh : 0 ≤ fh)
    (h₁ : write_fontsize fam size₀ bw₁ bh₁ autofit fw fh text fuel = some s₁)
    (h₂ : write_fontsize fam size₀ bw₂ bh₂ autofit fw fh text fuel = some s₂) :
    s₁ ≤ s₂ := by
  rw [write_fontsize] at h₁ h₂
  by_cases ht : autofitTriggered autofit fw fh
  · rw [if_pos ht] at h₁ h₂
    exact write_fontsize_loop_mono fam text
      (pyIntTimes_mono fw hfw (le_of_lt hw)) (pyIntTimes_mono fh hfh (le_of_lt hh))
      fuel 8 s₁ s₂ h₁ h₂
  · rw [if_neg ht] at h₁ h₂
    have e₁ : size₀ = s₁ := by simpa using h₁
    have e₂ : size₀ = s₂ := by simpa using h₂
    omega

/-- C7, witness: growing the box from `10 × 10` to `20 × 20` moves the chosen
size from 8 to 16 with the size-linear font - never smaller. -/
theorem write_fontsize_monotone_witness : (8 : ℕ) ≤ 16 :=
  write_fontsize_monotone famLin 12 true 1 (mkRat 4 5) ['x'] 20 10 10 20 20 8 16
    (by decide) (by decide) (by decide) (by decide) (by decide) (by decide)
